import Mathlib

/-!
A shallow embedding of the Goldenflop poker program
(`programs/goldenflop/src/lib.rs` and `state.rs`) and proofs about it.

Modelling conventions:
* `Pubkey` is modelled as `Nat`; `Pubkey::default()` is `0`.
* `u64` values are natural numbers; additions that can overflow in the
  source (`table.pot += …`) are taken modulo `2 ^ 64`, the wrap-around
  behaviour of `u64` addition in a release build.  Subtraction of chips
  is always guarded by `amount <= chips` in the source, so `Nat`
  subtraction agrees with `u64` subtraction there.
* Fallible instructions return `Except GoldenflopError _`; the Anchor
  runtime commits no account mutation when an instruction errors, so an
  error result carries no state.
* `Clock::get()` is an explicit `now : Int` argument (`i64` timestamps).
-/

/-- Public keys, modelled as natural numbers; `Pubkey::default()` is `0`. -/
abbrev Pubkey := Nat

/-- The modulus of `u64` arithmetic. -/
def U64 : Nat := 2 ^ 64

/-- `MAX_PLAYERS` from `state.rs`. -/
def MAX_PLAYERS : Nat := 9

/-- `PlayerSlot` from `state.rs`. -/
structure PlayerSlot where
  authority : Pubkey
  session_key : Pubkey
  chips : Nat
  in_hand : Bool
deriving DecidableEq, Repr

/-- `TableState` from `state.rs`. -/
inductive TableState where
  | WaitingForPlayers
  | BetweenHands
  | InHand
deriving DecidableEq, Repr

/-- `Table` from `state.rs` (the `bump` PDA byte is irrelevant to the logic
and omitted). -/
structure Table where
  creator : Pubkey
  small_blind : Nat
  big_blind : Nat
  min_buy_in : Nat
  max_buy_in : Nat
  pot : Nat
  state : TableState
  deck_seed : Nat
  player_count : Nat
  players : List (Option PlayerSlot)
deriving DecidableEq, Repr

/-- `Session` from `state.rs` (again without the `bump` byte). -/
structure Session where
  authority : Pubkey
  ephemeral_signer : Pubkey
  table : Pubkey
  created_at : Int
  expiry : Int
deriving DecidableEq, Repr

/-- `GoldenflopError` from `lib.rs`. -/
inductive GoldenflopError where
  | InvalidTableState
  | TableFull
  | InvalidBuyIn
  | SessionExpired
  | InvalidSigner
  | PlayerNotFound
  | NotInHand
  | InsufficientChips
deriving DecidableEq, Repr

/-- `GameAction` from `lib.rs`. -/
inductive GameAction where
  | Fold
  | Call
  | Bet (amount : Nat)
  | Raise (amount : Nat)
  | AllIn
deriving DecidableEq, Repr

/-- The loop body of `Table::find_player`: scan `players` from position `i`
for an occupied slot whose `authority` matches, returning its index. -/
def findPlayerAux (ps : List (Option PlayerSlot)) (a : Pubkey) (i : Nat) : Option Nat :=
  match ps with
  | [] => none
  | none :: rest => findPlayerAux rest a (i + 1)
  | some s :: rest => if s.authority = a then some i else findPlayerAux rest a (i + 1)

/-- `Table::find_player` from `state.rs`: the index of the first occupied
slot whose `authority` equals `a`, or `none` (the Rust code errs with
`PlayerNotFound`, which callers translate). -/
def Table.find_player (t : Table) (a : Pubkey) : Option Nat :=
  findPlayerAux t.players a 0

/-- The first loop of `Table::compact_players`: walk `read` upward, moving
each occupied slot down to the `write` cursor (`players[write] =
players[read].take()` when the cursors differ). Returns the final players
array and the final `write` cursor. -/
def compactAux (ps : List (Option PlayerSlot)) (write read : Nat) :
    List (Option PlayerSlot) × Nat :=
  if read < MAX_PLAYERS then
    match ps[read]? with
    | some (some s) =>
        compactAux (if write = read then ps else (ps.set write (some s)).set read none)
          (write + 1) (read + 1)
    | _ => compactAux ps write (read + 1)
  else (ps, write)
termination_by MAX_PLAYERS - read

/-- The second loop of `Table::compact_players`: clear every slot from
position `i` up to `MAX_PLAYERS`. -/
def clearFrom (ps : List (Option PlayerSlot)) (i : Nat) : List (Option PlayerSlot) :=
  if i < MAX_PLAYERS then clearFrom (ps.set i none) (i + 1) else ps
termination_by MAX_PLAYERS - i

/-- `Table::compact_players` from `state.rs` (it always returns `Ok(())`, so
it is modelled as a total function). -/
def Table.compact_players (t : Table) : Table :=
  let r := compactAux t.players 0 0
  { t with players := clearFrom r.1 r.2, player_count := r.2 }

/-- The `create_table` instruction from `lib.rs`. -/
def create_table (creator : Pubkey) (small_blind big_blind min_buy_in max_buy_in : Nat) :
    Table :=
  { creator := creator
    small_blind := small_blind
    big_blind := big_blind
    min_buy_in := min_buy_in
    max_buy_in := max_buy_in
    pot := 0
    state := TableState.WaitingForPlayers
    deck_seed := 0
    player_count := 0
    players := List.replicate MAX_PLAYERS none }

/-- The `join_table` instruction from `lib.rs`; `player` is the signing
wallet, `buy_in_lamports` the buy-in. -/
def join_table (t : Table) (player : Pubkey) (buy_in_lamports : Nat) :
    Except GoldenflopError Table :=
  if ¬(t.state = TableState.WaitingForPlayers ∨ t.state = TableState.BetweenHands) then
    .error .InvalidTableState
  else if ¬(t.player_count < MAX_PLAYERS) then
    .error .TableFull
  else if ¬(t.min_buy_in ≤ buy_in_lamports ∧ buy_in_lamports ≤ t.max_buy_in) then
    .error .InvalidBuyIn
  else
    .ok { t with
          players := t.players.set t.player_count
            (some { authority := player, session_key := 0,
                    chips := buy_in_lamports, in_hand := true })
          player_count := t.player_count + 1 }

/-- The `create_session` instruction from `lib.rs`; `authority` is the
signing wallet, `tableKey` the table account's address, `now` the clock
value.  On success it returns the new `Session` record and the updated
table (the found seat's `session_key` set to `ephemeral_signer`). -/
def create_session (t : Table) (authority tableKey ephemeral_signer : Pubkey)
    (expiry_ts now : Int) : Except GoldenflopError (Session × Table) :=
  if ¬(expiry_ts > now) then
    .error .SessionExpired
  else
    match t.find_player authority with
    | none => .error .PlayerNotFound
    | some i =>
        match t.players[i]? with
        | some (some slot) =>
            .ok ({ authority := authority, ephemeral_signer := ephemeral_signer,
                   table := tableKey, created_at := now, expiry := expiry_ts },
                 { t with players :=
                            t.players.set i (some { slot with session_key := ephemeral_signer }) })
        | _ => .error .PlayerNotFound

/-- The `action` instruction from `lib.rs`; `signer` is the transaction's
signer, `now` the clock value.  The `players[player_index].as_mut()
.ok_or(PlayerNotFound)` re-read of the found slot is modelled by the inner
match (its `none` branches are unreachable when the index comes from
`find_player`). -/
def action (t : Table) (session : Session) (signer : Pubkey) (now : Int)
    (game_action : GameAction) : Except GoldenflopError Table :=
  if ¬(now < session.expiry) then
    .error .SessionExpired
  else if ¬(signer = session.ephemeral_signer) then
    .error .InvalidSigner
  else
    match t.find_player session.authority with
    | none => .error .PlayerNotFound
    | some i =>
        match t.players[i]? with
        | some (some slot) =>
            if ¬(slot.in_hand = true) then
              .error .NotInHand
            else
              match game_action with
              | .Fold =>
                  .ok { t with players := t.players.set i (some { slot with in_hand := false }) }
              | .Call =>
                  .ok { t with pot := (t.pot + t.big_blind) % U64 }
              | .Bet amount =>
                  if ¬(amount ≤ slot.chips) then
                    .error .InsufficientChips
                  else
                    .ok { t with
                          players := t.players.set i (some { slot with chips := slot.chips - amount })
                          pot := (t.pot + amount) % U64 }
              | .Raise amount =>
                  if ¬(amount ≤ slot.chips) then
                    .error .InsufficientChips
                  else
                    .ok { t with
                          players := t.players.set i (some { slot with chips := slot.chips - amount })
                          pot := (t.pot + amount) % U64 }
              | .AllIn =>
                  .ok { t with
                        players := t.players.set i (some { slot with chips := 0 })
                        pot := (t.pot + slot.chips) % U64 }
        | _ => .error .PlayerNotFound

/-- The `leave_table` instruction from `lib.rs`: find the caller's seat,
clear it, then compact. -/
def leave_table (t : Table) (player : Pubkey) : Except GoldenflopError Table :=
  match t.find_player player with
  | none => .error .PlayerNotFound
  | some i => .ok (Table.compact_players { t with players := t.players.set i none })

/-- The `revoke_session` instruction from `lib.rs`: only the authorization
check lives in the instruction body (the account close is an Anchor
constraint, modelled at the `runOp` level). -/
def revoke_session (s : Session) (caller : Pubkey) : Except GoldenflopError Unit :=
  if ¬(caller = s.authority) then .error .InvalidSigner else .ok ()

/-- The `players` array of a well-formed roster: the slots `xs` in order,
followed by empty slots up to `MAX_PLAYERS`. -/
def Spread (xs : List PlayerSlot) : List (Option PlayerSlot) :=
  xs.map some ++ List.replicate (MAX_PLAYERS - xs.length) none

/-- The roster invariant: some list `xs` of at most `MAX_PLAYERS` seated
players occupies a contiguous prefix of `players`, and `player_count` is
its length. -/
def TableShape (t : Table) : Prop :=
  ∃ xs : List PlayerSlot,
    xs.length ≤ MAX_PLAYERS ∧ t.player_count = xs.length ∧ t.players = Spread xs

/-- The chips held by occupied seats plus the pot (the quantity conserved
by chip movement into the pot). -/
def chipsPlusPot (t : Table) : Nat :=
  ((t.players.filterMap id).map PlayerSlot.chips).sum + t.pot

/-- The amount an `action` variant adds to the pot, given the table and the
resolved seat: nothing for `Fold`, the big blind for `Call`, the bet or
raise amount, and the seat's whole stack for `AllIn`. -/
def potDelta (t : Table) (slot : PlayerSlot) : GameAction → Nat
  | .Fold => 0
  | .Call => t.big_blind
  | .Bet amount => amount
  | .Raise amount => amount
  | .AllIn => slot.chips

/-- The tables reachable from `create_table` by successful instructions
(instruction arguments, sessions and clock values unconstrained; only the
table evolves). -/
inductive Reachable : Table → Prop where
  | create (creator : Pubkey) (sb bb mn mx : Nat) :
      Reachable (create_table creator sb bb mn mx)
  | join {t t' : Table} (p : Pubkey) (b : Nat) :
      Reachable t → join_table t p b = .ok t' → Reachable t'
  | session {t t' : Table} (a tk eph : Pubkey) (exp now : Int) (s : Session) :
      Reachable t → create_session t a tk eph exp now = .ok (s, t') → Reachable t'
  | act {t t' : Table} (s : Session) (k : Pubkey) (now : Int) (ga : GameAction) :
      Reachable t → action t s k now ga = .ok t' → Reachable t'
  | leave {t t' : Table} (p : Pubkey) :
      Reachable t → leave_table t p = .ok t' → Reachable t'
  | revoke {t : Table} (s : Session) (caller : Pubkey) :
      Reachable t → Reachable t

/-- The full state an instruction can touch: the table and the session
records, keyed by their authority (sessions are PDAs of
`(authority, table)`; there is one table here). -/
structure World where
  table : Table
  sessions : List (Pubkey × Session)
deriving DecidableEq, Repr

/-- Look a session record up by its authority key. -/
def lookupSession (ss : List (Pubkey × Session)) (a : Pubkey) : Option Session :=
  (ss.find? (fun q => q.1 == a)).map (fun q => q.2)

/-- Close (delete) the session record keyed by `a`. -/
def removeSession (ss : List (Pubkey × Session)) (a : Pubkey) :
    List (Pubkey × Session) :=
  ss.filter (fun q => q.1 != a)

/-- One instruction of the deployed program, with its external inputs
(signers and clock) made explicit. -/
inductive Op where
  | joinTable (player : Pubkey) (buy_in : Nat)
  | createSession (authority ephemeral_signer : Pubkey) (expiry_ts now : Int)
  | act (sessionAuthority signer : Pubkey) (now : Int) (ga : GameAction)
  | leaveTable (player : Pubkey)
  | revokeSession (sessionAuthority caller : Pubkey)
deriving DecidableEq, Repr

/-- Failures visible to a caller: an in-program `GoldenflopError`, or the
record store rejecting the instruction (missing account, or duplicate
creation of a session PDA).  Anchor commits nothing when an instruction
fails, so a failing `runOp` returns the input world unchanged. -/
inductive OpError where
  | core (e : GoldenflopError)
  | store
deriving DecidableEq, Repr

/-- Run one instruction against the world, returning the committed world
and the failure, if any. -/
def runOp (w : World) (op : Op) : World × Option OpError :=
  match op with
  | .joinTable p b =>
      match join_table w.table p b with
      | .ok t' => ({ w with table := t' }, none)
      | .error e => (w, some (.core e))
  | .createSession a eph exp now =>
      match lookupSession w.sessions a with
      | some _ => (w, some .store)
      | none =>
          match create_session w.table a w.table.creator eph exp now with
          | .ok r => ({ table := r.2, sessions := (a, r.1) :: w.sessions }, none)
          | .error e => (w, some (.core e))
  | .act sa k now ga =>
      match lookupSession w.sessions sa with
      | none => (w, some .store)
      | some s =>
          match action w.table s k now ga with
          | .ok t' => ({ w with table := t' }, none)
          | .error e => (w, some (.core e))
  | .leaveTable p =>
      match leave_table w.table p with
      | .ok t' => ({ w with table := t' }, none)
      | .error e => (w, some (.core e))
  | .revokeSession sa caller =>
      match lookupSession w.sessions sa with
      | none => (w, some .store)
      | some s =>
          match revoke_session s caller with
          | .ok _ => ({ w with sessions := removeSession w.sessions sa }, none)
          | .error e => (w, some (.core e))

/-! ### Concrete fixtures used by witnesses and counterexamples -/

/-- A seated player used by the concrete test states. -/
def sampleSlot : PlayerSlot :=
  { authority := 10, session_key := 20, chips := 500, in_hand := true }

/-- A table with one seated player (authority `10`, delegated key `20`). -/
def sampleTable : Table :=
  { creator := 7, small_blind := 1, big_blind := 2, min_buy_in := 100, max_buy_in := 1000,
    pot := 0, state := TableState.WaitingForPlayers, deck_seed := 0, player_count := 1,
    players := [some sampleSlot, none, none, none, none, none, none, none, none] }

/-- The session of `sampleTable`'s player. -/
def sampleSession : Session :=
  { authority := 10, ephemeral_signer := 20, table := 7, created_at := 5, expiry := 1000 }

/-- `sampleTable` with the pot one below the `u64` wrap-around point
(reachable: a max buy-in `AllIn` fills the pot, then the player re-joins). -/
def wrapTable : Table := { sampleTable with pot := 2 ^ 64 - 1 }

/-- `sampleTable` with a zero big blind (no check in `create_table` rules
this configuration out) and a non-empty pot. -/
def zeroBlindTable : Table := { sampleTable with big_blind := 0, pot := 5 }

/-- The table after `Bet 200` on `sampleTable` by the seated player. -/
def sampleTableBet : Table :=
  { sampleTable with
    players := [some { sampleSlot with chips := 300 },
                none, none, none, none, none, none, none, none]
    pot := 200 }

/-- The table after `Call` on `sampleTable` by the seated player. -/
def sampleTableCall : Table := { sampleTable with pot := 2 }

/-- A world holding `sampleTable` and the seated player's session. -/
def sampleWorld : World := { table := sampleTable, sessions := [(10, sampleSession)] }

/-! ### Helper lemmas about `find_player` -/

theorem findPlayerAux_eq_some {ps : List (Option PlayerSlot)} {a : Pubkey} {i j : Nat}
    (h : findPlayerAux ps a i = some j) :
    ∃ k s, j = i + k ∧ ps[k]? = some (some s) ∧ s.authority = a := by
  induction ps generalizing i with
  | nil => simp [findPlayerAux] at h
  | cons o rest ih =>
    cases o with
    | none =>
      simp only [findPlayerAux] at h
      obtain ⟨k, s, hj, hk, ha⟩ := ih h
      exact ⟨k + 1, s, by omega, by simpa using hk, ha⟩
    | some s0 =>
      simp only [findPlayerAux] at h
      by_cases hs : s0.authority = a
      · rw [if_pos hs] at h
        cases h
        exact ⟨0, s0, by omega, by simp, hs⟩
      · rw [if_neg hs] at h
        obtain ⟨k, s, hj, hk, ha⟩ := ih h
        exact ⟨k + 1, s, by omega, by simpa using hk, ha⟩

theorem findPlayerAux_eq_none {ps : List (Option PlayerSlot)} {a : Pubkey} {i : Nat} :
    findPlayerAux ps a i = none ↔
      ∀ (k : Nat) (s : PlayerSlot), ps[k]? = some (some s) → ¬s.authority = a := by
  induction ps generalizing i with
  | nil => simp [findPlayerAux]
  | cons o rest ih =>
    cases o with
    | none =>
      simp only [findPlayerAux, ih]
      constructor
      · intro h k s hk
        cases k with
        | zero => simp at hk
        | succ k => exact h k s (by simpa using hk)
      · intro h k s hk
        exact h (k + 1) s (by simpa using hk)
    | some s0 =>
      by_cases hs : s0.authority = a
      · simp only [findPlayerAux, if_pos hs]
        constructor
        · intro h; exact absurd h (by simp)
        · intro h; exact absurd hs (h 0 s0 (by simp))
      · simp only [findPlayerAux, if_neg hs, ih]
        constructor
        · intro h k s hk
          cases k with
          | zero =>
            simp only [List.getElem?_cons_zero, Option.some.injEq, Option.some.injEq] at hk
            subst hk; exact hs
          | succ k => exact h k s (by simpa using hk)
        · intro h k s hk
          exact h (k + 1) s (by simpa using hk)

theorem find_player_eq_some {t : Table} {a : Pubkey} {i : Nat}
    (h : t.find_player a = some i) :
    ∃ s, t.players[i]? = some (some s) ∧ s.authority = a := by
  obtain ⟨k, s, hj, hk, ha⟩ := findPlayerAux_eq_some h
  exact ⟨s, by simpa [hj] using hk, ha⟩

theorem find_player_eq_none {t : Table} {a : Pubkey} :
    t.find_player a = none ↔
      ∀ (k : Nat) (s : PlayerSlot), t.players[k]? = some (some s) → ¬s.authority = a :=
  findPlayerAux_eq_none

/-! ### Helper lemmas about `Spread` -/

theorem filterMap_id_replicate_none {n : Nat} :
    (List.replicate n (none : Option PlayerSlot)).filterMap id = [] := by
  induction n with
  | zero => simp
  | succ n ih => simp [List.replicate_succ, ih]

theorem filterMap_id_map_some (xs : List PlayerSlot) :
    (xs.map some).filterMap id = xs := by
  induction xs with
  | nil => simp
  | cons x xs ih => simp [ih]

theorem Spread_length {xs : List PlayerSlot} (h : xs.length ≤ MAX_PLAYERS) :
    (Spread xs).length = MAX_PLAYERS := by
  simp [Spread]
  omega

theorem Spread_getElem_lt {xs : List PlayerSlot} {i : Nat} (h : i < xs.length) :
    (Spread xs)[i]? = (xs[i]?).map some := by
  rw [Spread, List.getElem?_append_left (by simpa using h)]
  simp [List.getElem?_map]

theorem Spread_getElem_ge {xs : List PlayerSlot} {i : Nat}
    (h1 : xs.length ≤ i) (h2 : i < MAX_PLAYERS) :
    (Spread xs)[i]? = some none := by
  rw [Spread, List.getElem?_append_right (by simpa using h1)]
  simp only [List.length_map]
  rw [List.getElem?_replicate]
  rw [if_pos (by omega)]

theorem Spread_filterMap {xs : List PlayerSlot} :
    (Spread xs).filterMap id = xs := by
  rw [Spread, List.filterMap_append, filterMap_id_replicate_none,
      filterMap_id_map_some, List.append_nil]

theorem Spread_set_lt {xs : List PlayerSlot} {i : Nat} (h : i < xs.length)
    (s' : PlayerSlot) :
    (Spread xs).set i (some s') = Spread (xs.set i s') := by
  rw [Spread, List.set_append_left _ _ (by simpa using h), ← List.map_set, Spread]
  simp

theorem Spread_set_append {xs : List PlayerSlot} (h : xs.length < MAX_PLAYERS)
    (s : PlayerSlot) :
    (Spread xs).set xs.length (some s) = Spread (xs ++ [s]) := by
  rw [Spread, List.set_append_right _ _ (by simp)]
  have hrep : MAX_PLAYERS - xs.length = (MAX_PLAYERS - (xs.length + 1)) + 1 := by omega
  rw [List.length_map, Nat.sub_self, hrep, List.replicate_succ, List.set_cons_zero]
  simp [Spread]

theorem Spread_set_none_filterMap {xs : List PlayerSlot} {i : Nat} (h : i < xs.length) :
    ((Spread xs).set i none).filterMap id = xs.eraseIdx i := by
  have hxs : xs = xs.take i ++ xs[i] :: xs.drop (i + 1) := by
    conv_lhs => rw [← List.take_append_drop i xs]
    rw [List.drop_eq_getElem_cons h]
  rw [Spread, List.set_append_left _ _ (by simpa using h),
      List.filterMap_append, filterMap_id_replicate_none, List.append_nil]
  conv_lhs => rw [hxs]
  have hl : (List.map some (xs.take i)).length = i := by
    simp [List.length_take]
    omega
  rw [List.map_append, List.map_cons, List.set_append_right _ _ (by omega), hl,
      Nat.sub_self, List.set_cons_zero, List.filterMap_append, filterMap_id_map_some]
  rw [List.eraseIdx_eq_take_drop_succ]
  simpa using filterMap_id_map_some (xs.drop (i + 1))

/-! ### Characterization of `compact_players` -/

theorem compactAux_spec (n : Nat) :
    ∀ (read : Nat), MAX_PLAYERS - read = n →
    ∀ (ps : List (Option PlayerSlot)) (write : Nat),
      ps.length = MAX_PLAYERS → write ≤ read →
      (compactAux ps write read).2 = write + ((ps.drop read).filterMap id).length ∧
      (compactAux ps write read).1.length = MAX_PLAYERS ∧
      (compactAux ps write read).1.take (compactAux ps write read).2 =
        ps.take write ++ ((ps.drop read).filterMap id).map some := by
  induction n with
  | zero =>
    intro read hread ps write hlen hw
    have h9 : ¬(read < MAX_PLAYERS) := by omega
    have hdrop : ps.drop read = [] := List.drop_eq_nil_of_le (by omega)
    rw [compactAux, if_neg h9]
    exact ⟨by simp [hdrop], hlen, by simp [hdrop]⟩
  | succ n ih =>
    intro read hread ps write hlen hw
    have h9 : read < MAX_PLAYERS := by omega
    have hr : read < ps.length := by omega
    have hget : ps[read]? = some ps[read] := List.getElem?_eq_some_iff.mpr ⟨hr, rfl⟩
    have hdropc : ps.drop read = ps[read] :: ps.drop (read + 1) :=
      List.drop_eq_getElem_cons hr
    rw [compactAux]
    match ho : ps[read] with
    | none =>
        simp only [if_pos h9, hget, ho]
        have hfm : (ps.drop read).filterMap id = (ps.drop (read + 1)).filterMap id := by
          rw [hdropc, ho]
          simp
        obtain ⟨h1, h2, h3⟩ := ih (read + 1) (by omega) ps write hlen (by omega)
        exact ⟨by rw [h1, hfm], h2, by rw [h3, hfm]⟩
    | some s =>
        simp only [if_pos h9, hget, ho]
        set ps' := if write = read then ps else (ps.set write (some s)).set read none
          with hps'
        have hlen' : ps'.length = MAX_PLAYERS := by
          rw [hps']
          split <;> simp [hlen]
        have hdrop' : ps'.drop (read + 1) = ps.drop (read + 1) := by
          rw [hps']
          split
          · rfl
          · rw [List.drop_set, if_pos (by omega), List.drop_set, if_pos (by omega)]
        have htake' : ps'.take (write + 1) = ps.take write ++ [some s] := by
          rw [hps']
          split
          · rename_i hweq
            rw [List.take_succ, hweq, hget, ho]
            rfl
          · rename_i hwne
            have hwlt : write < read := by omega
            rw [List.set_take,
                List.set_eq_of_length_le (by simp [List.length_take]; omega),
                List.take_succ, List.getElem?_set_self (by omega)]
            congr 1
            rw [List.set_take, List.set_eq_of_length_le (by simp [List.length_take])]
        have hfm : (ps.drop read).filterMap id = s :: (ps.drop (read + 1)).filterMap id := by
          rw [hdropc, ho]
          simp
        obtain ⟨h1, h2, h3⟩ := ih (read + 1) (by omega) ps' (write + 1) hlen' (by omega)
        refine ⟨?_, h2, ?_⟩
        · rw [h1, hdrop', hfm]
          simp
          omega
        · rw [h3, htake', hdrop', hfm]
          simp

theorem clearFrom_spec (n : Nat) :
    ∀ (i : Nat), MAX_PLAYERS - i = n →
    ∀ (ps : List (Option PlayerSlot)), ps.length = MAX_PLAYERS →
      clearFrom ps i = ps.take i ++ List.replicate (MAX_PLAYERS - i) none := by
  induction n with
  | zero =>
    intro i hi ps hlen
    have h9 : ¬(i < MAX_PLAYERS) := by omega
    rw [clearFrom, if_neg h9, List.take_of_length_le (by omega), hi]
    simp
  | succ n ih =>
    intro i hi ps hlen
    have h9 : i < MAX_PLAYERS := by omega
    rw [clearFrom, if_pos h9, ih (i + 1) (by omega) _ (by simp [hlen])]
    have hi' : i < ps.length := by omega
    have hgi : ps[i]? = some ps[i] := List.getElem?_eq_some_iff.mpr ⟨hi', rfl⟩
    rw [List.set_take, List.take_succ, hgi,
        List.set_append_right _ _ (by simp [List.length_take]), List.length_take]
    have hmin : i - min i ps.length = 0 := by omega
    have hrep : MAX_PLAYERS - i = (MAX_PLAYERS - (i + 1)) + 1 := by omega
    rw [hmin, hrep, List.replicate_succ]
    simp

/-- What `Table::compact_players` computes: the occupied slots pulled to
the front in their original order, the tail cleared, and `player_count`
set to the number of occupied slots. -/
theorem compact_players_eq (t : Table) (hlen : t.players.length = MAX_PLAYERS) :
    t.compact_players =
      { t with
        players := (t.players.filterMap id).map some ++
          List.replicate (MAX_PLAYERS - (t.players.filterMap id).length) none
        player_count := (t.players.filterMap id).length } := by
  obtain ⟨h1, h2, h3⟩ := compactAux_spec MAX_PLAYERS 0 rfl t.players 0 hlen (by omega)
  have hc : (t.players.filterMap id).length ≤ MAX_PLAYERS := by
    calc (t.players.filterMap id).length ≤ t.players.length := List.length_filterMap_le id _
    _ = MAX_PLAYERS := hlen
  rw [Table.compact_players]
  simp only [List.drop_zero] at h1 h3
  rw [clearFrom_spec (MAX_PLAYERS - (compactAux t.players 0 0).2) _ rfl _ h2, h3, h1]
  simp

/-! ### Inversion lemmas for successful instructions -/

theorem join_table_ok {t t' : Table} {p : Pubkey} {b : Nat}
    (h : join_table t p b = .ok t') :
    (t.state = TableState.WaitingForPlayers ∨ t.state = TableState.BetweenHands) ∧
    t.player_count < MAX_PLAYERS ∧ t.min_buy_in ≤ b ∧ b ≤ t.max_buy_in ∧
    t' = { t with
           players := t.players.set t.player_count
             (some { authority := p, session_key := 0, chips := b, in_hand := true })
           player_count := t.player_count + 1 } := by
  rw [join_table] at h
  split at h
  · exact absurd h (by simp)
  · split at h
    · exact absurd h (by simp)
    · split at h
      · exact absurd h (by simp)
      · rename_i h1 h2 h3
        simp only [Except.ok.injEq] at h
        exact ⟨by tauto, by omega, by tauto, by tauto, h.symm⟩

theorem create_session_ok {t t' : Table} {a tk eph : Pubkey} {exp now : Int} {s : Session}
    (h : create_session t a tk eph exp now = .ok (s, t')) :
    exp > now ∧
    s = { authority := a, ephemeral_signer := eph, table := tk,
          created_at := now, expiry := exp } ∧
    ∃ i slot, t.find_player a = some i ∧ t.players[i]? = some (some slot) ∧
      t' = { t with players := t.players.set i (some { slot with session_key := eph }) } := by
  rw [create_session] at h
  split at h
  · exact absurd h (by simp)
  · rename_i h1
    split at h
    · exact absurd h (by simp)
    · rename_i i hfind
      split at h
      · rename_i slot hslot
        simp only [Except.ok.injEq, Prod.mk.injEq] at h
        exact ⟨by omega, h.1.symm, i, slot, hfind, hslot, h.2.symm⟩
      · exact absurd h (by simp)

theorem action_ok {t t' : Table} {s : Session} {k : Pubkey} {now : Int} {ga : GameAction}
    (h : action t s k now ga = .ok t') :
    now < s.expiry ∧ k = s.ephemeral_signer ∧
    ∃ i slot, t.find_player s.authority = some i ∧ t.players[i]? = some (some slot) ∧
      slot.in_hand = true ∧
      ((ga = GameAction.Fold ∧
        t' = { t with players := t.players.set i (some { slot with in_hand := false }) }) ∨
       (ga = GameAction.Call ∧ t' = { t with pot := (t.pot + t.big_blind) % U64 }) ∨
       (∃ amount, (ga = GameAction.Bet amount ∨ ga = GameAction.Raise amount) ∧
         amount ≤ slot.chips ∧
         t' = { t with
                players := t.players.set i (some { slot with chips := slot.chips - amount })
                pot := (t.pot + amount) % U64 }) ∨
       (ga = GameAction.AllIn ∧
        t' = { t with
               players := t.players.set i (some { slot with chips := 0 })
               pot := (t.pot + slot.chips) % U64 })) := by
  rw [action] at h
  split at h
  · exact absurd h (by simp)
  · rename_i h1
    split at h
    · exact absurd h (by simp)
    · rename_i h2
      split at h
      · exact absurd h (by simp)
      · rename_i i hfind
        split at h
        · rename_i slot hslot
          split at h
          · exact absurd h (by simp)
          · rename_i h4
            refine ⟨by omega, by tauto, i, slot, hfind, hslot, by tauto, ?_⟩
            split at h
            · simp only [Except.ok.injEq] at h
              exact Or.inl ⟨rfl, h.symm⟩
            · simp only [Except.ok.injEq] at h
              exact Or.inr (Or.inl ⟨rfl, h.symm⟩)
            · rename_i xg am
              split at h
              · exact absurd h (by simp)
              · rename_i h5
                simp only [Except.ok.injEq] at h
                exact Or.inr (Or.inr (Or.inl ⟨am, Or.inl rfl, by omega, h.symm⟩))
            · rename_i xg am
              split at h
              · exact absurd h (by simp)
              · rename_i h5
                simp only [Except.ok.injEq] at h
                exact Or.inr (Or.inr (Or.inl ⟨am, Or.inr rfl, by omega, h.symm⟩))
            · simp only [Except.ok.injEq] at h
              exact Or.inr (Or.inr (Or.inr ⟨rfl, h.symm⟩))
        · exact absurd h (by simp)

theorem leave_table_ok {t t' : Table} {p : Pubkey}
    (h : leave_table t p = .ok t') :
    ∃ i, t.find_player p = some i ∧
      t' = Table.compact_players { t with players := t.players.set i none } := by
  rw [leave_table] at h
  split at h
  · exact absurd h (by simp)
  · rename_i i hfind
    simp only [Except.ok.injEq] at h
    exact ⟨i, hfind, h.symm⟩

/-! ### Preservation of the roster shape -/

theorem find_player_shape {t : Table} {xs : List PlayerSlot} {a : Pubkey} {i : Nat}
    (hps : t.players = Spread xs) (hle : xs.length ≤ MAX_PLAYERS)
    (h : t.find_player a = some i) :
    ∃ hi : i < xs.length, xs[i].authority = a := by
  obtain ⟨s, hs, ha⟩ := find_player_eq_some h
  rw [hps] at hs
  by_cases hi : i < xs.length
  · rw [Spread_getElem_lt hi, List.getElem?_eq_some_iff.mpr ⟨hi, rfl⟩] at hs
    simp only [Option.map_some', Option.some.injEq] at hs
    exact ⟨hi, by rw [hs]; exact ha⟩
  · by_cases h9 : i < MAX_PLAYERS
    · rw [Spread_getElem_ge (by omega) h9] at hs
      simp at hs
    · rw [List.getElem?_eq_none (by rw [Spread_length hle]; omega)] at hs
      simp at hs

theorem TableShape_create (creator : Pubkey) (sb bb mn mx : Nat) :
    TableShape (create_table creator sb bb mn mx) := by
  refine ⟨[], by simp [MAX_PLAYERS], rfl, ?_⟩
  simp [create_table, Spread]

theorem TableShape_join {t t' : Table} {p : Pubkey} {b : Nat}
    (hsh : TableShape t) (h : join_table t p b = .ok t') : TableShape t' := by
  obtain ⟨xs, hle, hcount, hps⟩ := hsh
  obtain ⟨_, hlt, _, _, ht'⟩ := join_table_ok h
  refine ⟨xs ++ [⟨p, 0, b, true⟩], by simp; omega, by simp [ht', hcount], ?_⟩
  rw [ht']
  simp only [hps, hcount]
  exact Spread_set_append (by omega) _

theorem TableShape_session {t t' : Table} {a tk eph : Pubkey} {exp now : Int} {s : Session}
    (hsh : TableShape t) (h : create_session t a tk eph exp now = .ok (s, t')) :
    TableShape t' := by
  obtain ⟨xs, hle, hcount, hps⟩ := hsh
  obtain ⟨_, _, i, slot, hfind, hslot, ht'⟩ := create_session_ok h
  obtain ⟨hi, _⟩ := find_player_shape hps hle hfind
  refine ⟨xs.set i { slot with session_key := eph }, by simp; omega, by simp [ht', hcount], ?_⟩
  rw [ht']
  simp only [hps]
  exact Spread_set_lt hi _

theorem TableShape_action {t t' : Table} {s : Session} {k : Pubkey} {now : Int}
    {ga : GameAction} (hsh : TableShape t) (h : action t s k now ga = .ok t') :
    TableShape t' := by
  obtain ⟨xs, hle, hcount, hps⟩ := hsh
  obtain ⟨_, _, i, slot, hfind, hslot, _, hcases⟩ := action_ok h
  obtain ⟨hi, _⟩ := find_player_shape hps hle hfind
  rcases hcases with ⟨_, ht'⟩ | ⟨_, ht'⟩ | ⟨amount, _, _, ht'⟩ | ⟨_, ht'⟩
  · exact ⟨xs.set i { slot with in_hand := false }, by simp; omega,
      by simp [ht', hcount], by rw [ht']; simp only [hps]; exact Spread_set_lt hi _⟩
  · exact ⟨xs, hle, by simp [ht', hcount], by rw [ht']; exact hps⟩
  · exact ⟨xs.set i { slot with chips := slot.chips - amount }, by simp; omega,
      by simp [ht', hcount], by rw [ht']; simp only [hps]; exact Spread_set_lt hi _⟩
  · exact ⟨xs.set i { slot with chips := 0 }, by simp; omega,
      by simp [ht', hcount], by rw [ht']; simp only [hps]; exact Spread_set_lt hi _⟩

theorem TableShape_leave {t t' : Table} {p : Pubkey}
    (hsh : TableShape t) (h : leave_table t p = .ok t') : TableShape t' := by
  obtain ⟨xs, hle, hcount, hps⟩ := hsh
  obtain ⟨i, hfind, ht'⟩ := leave_table_ok h
  obtain ⟨hi, _⟩ := find_player_shape hps hle hfind
  have hlen : ({ t with players := t.players.set i none } : Table).players.length
      = MAX_PLAYERS := by
    simp [hps, Spread_length hle]
  have hfm : ({ t with players := t.players.set i none } : Table).players.filterMap id
      = xs.eraseIdx i := by
    simp only [hps]
    exact Spread_set_none_filterMap hi
  rw [ht', compact_players_eq _ hlen]
  refine ⟨xs.eraseIdx i, ?_, ?_, ?_⟩
  · rw [List.length_eraseIdx_of_lt hi]
    omega
  · simp [hfm]
  · simp only [hfm, Spread]

theorem Reachable_shape {t : Table} (h : Reachable t) : TableShape t := by
  induction h with
  | create creator sb bb mn mx => exact TableShape_create creator sb bb mn mx
  | join p b _ hok ih => exact TableShape_join ih hok
  | session a tk eph exp now s _ hok ih => exact TableShape_session ih hok
  | act s k now ga _ hok ih => exact TableShape_action ih hok
  | leave p _ hok ih => exact TableShape_leave ih hok
  | revoke s caller _ ih => exact ih

/-! ### Chip-sum and session-map lemmas -/

theorem sum_chips_set {ps : List (Option PlayerSlot)} {i : Nat} {slot slot' : PlayerSlot}
    (h : ps[i]? = some (some slot)) :
    (((ps.set i (some slot')).filterMap id).map PlayerSlot.chips).sum + slot.chips
      = ((ps.filterMap id).map PlayerSlot.chips).sum + slot'.chips := by
  induction ps generalizing i with
  | nil => simp at h
  | cons o rest ih =>
    cases i with
    | zero =>
      simp only [List.getElem?_cons_zero, Option.some.injEq] at h
      subst h
      simp only [List.set_cons_zero, List.filterMap_cons, id_def]
      simp only [List.map_cons, List.sum_cons]
      omega
    | succ i =>
      simp only [List.getElem?_cons_succ] at h
      simp only [List.set_cons_succ]
      cases o with
      | none =>
        simp only [List.filterMap_cons, id_def]
        exact ih h
      | some v =>
        simp only [List.filterMap_cons, id_def, List.map_cons, List.sum_cons]
        have := ih h
        omega

theorem chips_le_sum {ps : List (Option PlayerSlot)} {i : Nat} {slot : PlayerSlot}
    (h : ps[i]? = some (some slot)) :
    slot.chips ≤ ((ps.filterMap id).map PlayerSlot.chips).sum := by
  have hmem2 : slot ∈ ps.filterMap id :=
    List.mem_filterMap.mpr ⟨some slot, List.getElem?_mem h, rfl⟩
  exact List.single_le_sum (fun x _ => Nat.zero_le x) _
    (List.mem_map_of_mem PlayerSlot.chips hmem2)

theorem lookupSession_removeSession (ss : List (Pubkey × Session)) (a : Pubkey) :
    lookupSession (removeSession ss a) a = none := by
  induction ss with
  | nil => rfl
  | cons q ss ih =>
    by_cases hq : q.1 = a
    · have hdrop : removeSession (q :: ss) a = removeSession ss a := by
        simp [removeSession, List.filter_cons, hq]
      rw [hdrop]
      exact ih
    · have hkeep : removeSession (q :: ss) a = q :: removeSession ss a := by
        simp [removeSession, List.filter_cons, hq]
      rw [hkeep, lookupSession, List.find?_cons_of_neg _ (by simp [hq])]
      exact ih

/-! ### The claims -/

/-- C1: an `action` call checks, in order, session expiry (else
`SessionExpired`), the ephemeral signer (else `InvalidSigner`), that the
session's authority holds an occupied seat (else `PlayerNotFound`), and
that that seat is in the hand (else `NotInHand`); its effect is applied
only when all four hold. -/
theorem C1_action_auth_checks (t : Table) (s : Session) (k : Pubkey) (now : Int)
    (ga : GameAction) :
    (¬now < s.expiry → action t s k now ga = .error .SessionExpired) ∧
    (now < s.expiry → ¬k = s.ephemeral_signer →
      action t s k now ga = .error .InvalidSigner) ∧
    (now < s.expiry → k = s.ephemeral_signer →
      (∀ (j : Nat) (sl : PlayerSlot), t.players[j]? = some (some sl) →
        ¬sl.authority = s.authority) →
      action t s k now ga = .error .PlayerNotFound) ∧
    (∀ (i : Nat) (slot : PlayerSlot), now < s.expiry → k = s.ephemeral_signer →
      t.find_player s.authority = some i → t.players[i]? = some (some slot) →
      slot.in_hand = false → action t s k now ga = .error .NotInHand) ∧
    (∀ t' : Table, action t s k now ga = .ok t' →
      now < s.expiry ∧ k = s.ephemeral_signer ∧
      ∃ (i : Nat) (slot : PlayerSlot), t.find_player s.authority = some i ∧
        t.players[i]? = some (some slot) ∧ slot.in_hand = true) := by
  refine ⟨?_, ?_, ?_, ?_, ?_⟩
  · intro h1
    rw [action, if_pos h1]
  · intro h1 h2
    rw [action, if_neg (not_not_intro h1), if_pos h2]
  · intro h1 h2 hno
    rw [action, if_neg (not_not_intro h1), if_neg (not_not_intro h2),
        show t.find_player s.authority = none from find_player_eq_none.mpr hno]
  · intro i slot h1 h2 hfind hslot hin
    simp only [action, hfind, hslot]
    rw [if_neg (not_not_intro h1), if_neg (not_not_intro h2), if_pos (by simp [hin])]
  · intro t' h
    obtain ⟨ha, hb, i, slot, h3, h4, h5, _⟩ := action_ok h
    exact ⟨ha, hb, i, slot, h3, h4, h5⟩

/-- Witness for C1 at a concrete expired call. -/
theorem C1_witness :
    action sampleTable sampleSession 20 2000 GameAction.Fold =
      .error .SessionExpired :=
  (C1_action_auth_checks sampleTable sampleSession 20 2000 GameAction.Fold).1 (by decide)

/-- C4: `join_table` checks, in order, the table state (else
`InvalidTableState`), the seat capacity (else `TableFull`), and the buy-in
range (else `InvalidBuyIn`); on success it writes a fresh slot at index
`player_count` (chips = buy-in, in hand, default session key), increments
`player_count`, and leaves every other slot unchanged. -/
theorem C4_join_table_spec (t : Table) (p : Pubkey) (b : Nat) :
    (¬(t.state = TableState.WaitingForPlayers ∨ t.state = TableState.BetweenHands) →
      join_table t p b = .error .InvalidTableState) ∧
    ((t.state = TableState.WaitingForPlayers ∨ t.state = TableState.BetweenHands) →
      ¬t.player_count < MAX_PLAYERS → join_table t p b = .error .TableFull) ∧
    ((t.state = TableState.WaitingForPlayers ∨ t.state = TableState.BetweenHands) →
      t.player_count < MAX_PLAYERS → ¬(t.min_buy_in ≤ b ∧ b ≤ t.max_buy_in) →
      join_table t p b = .error .InvalidBuyIn) ∧
    ((t.state = TableState.WaitingForPlayers ∨ t.state = TableState.BetweenHands) →
      t.player_count < MAX_PLAYERS → t.min_buy_in ≤ b → b ≤ t.max_buy_in →
      join_table t p b = .ok { t with
        players := t.players.set t.player_count
          (some { authority := p, session_key := 0, chips := b, in_hand := true })
        player_count := t.player_count + 1 }) ∧
    (∀ t' : Table, join_table t p b = .ok t' → ∀ j : Nat, ¬j = t.player_count →
      t'.players[j]? = t.players[j]?) := by
  refine ⟨?_, ?_, ?_, ?_, ?_⟩
  · intro h1
    rw [join_table, if_pos h1]
  · intro h1 h2
    rw [join_table, if_neg (not_not_intro h1), if_pos h2]
  · intro h1 h2 h3
    rw [join_table, if_neg (not_not_intro h1), if_neg (not_not_intro h2), if_pos h3]
  · intro h1 h2 h3 h4
    rw [join_table, if_neg (not_not_intro h1), if_neg (not_not_intro h2),
        if_neg (not_not_intro ⟨h3, h4⟩)]
  · intro t' h j hj
    obtain ⟨_, _, _, _, ht'⟩ := join_table_ok h
    rw [ht']
    exact List.getElem?_set_ne (by omega)

/-- Witness for C4: a successful join on the sample table. -/
theorem C4_witness :
    join_table sampleTable 11 500 = .ok { sampleTable with
      players := sampleTable.players.set sampleTable.player_count
        (some { authority := 11, session_key := 0, chips := 500, in_hand := true })
      player_count := sampleTable.player_count + 1 } :=
  (C4_join_table_spec sampleTable 11 500).2.2.2.1 (by decide) (by decide) (by decide)
    (by decide)

/-- C8: `create_session` fails `SessionExpired` when the expiry is not
strictly in the future, fails `PlayerNotFound` when the authority holds no
occupied seat, and otherwise records
`(authority, ephemeral_signer, table, created_at = now, expiry)` and caches
`ephemeral_signer` in the seat's `session_key`. -/
theorem C8_create_session_spec (t : Table) (a tk eph : Pubkey) (exp now : Int) :
    (¬exp > now → create_session t a tk eph exp now = .error .SessionExpired) ∧
    (exp > now →
      (∀ (j : Nat) (sl : PlayerSlot), t.players[j]? = some (some sl) →
        ¬sl.authority = a) →
      create_session t a tk eph exp now = .error .PlayerNotFound) ∧
    (∀ (i : Nat) (slot : PlayerSlot), exp > now →
      t.find_player a = some i → t.players[i]? = some (some slot) →
      create_session t a tk eph exp now =
        .ok ({ authority := a, ephemeral_signer := eph, table := tk,
               created_at := now, expiry := exp },
             { t with players :=
                        t.players.set i (some { slot with session_key := eph }) })) := by
  refine ⟨?_, ?_, ?_⟩
  · intro h1
    rw [create_session, if_pos h1]
  · intro h1 hno
    rw [create_session, if_neg (not_not_intro h1),
        show t.find_player a = none from find_player_eq_none.mpr hno]
  · intro i slot h1 hfind hslot
    simp only [create_session, hfind, hslot]
    rw [if_neg (not_not_intro h1)]

/-- Witness for C8: a successful session creation on the sample table. -/
theorem C8_witness :
    create_session sampleTable 10 7 21 1000 5 =
      .ok ({ authority := 10, ephemeral_signer := 21, table := 7,
             created_at := 5, expiry := 1000 },
           { sampleTable with players :=
               sampleTable.players.set 0 (some { sampleSlot with session_key := 21 }) }) :=
  (C8_create_session_spec sampleTable 10 7 21 1000 5).2.2 0 sampleSlot (by decide)
    (by decide) (by decide)

/-- C2 counterexample: on a reachable table whose pot is `2^64 - 1`, a
successful `Bet 1` wraps the pot to `0` instead of increasing it by the
amount (u64 addition wraps). -/
theorem C2_counterexample :
    (action wrapTable sampleSession 20 5 (GameAction.Bet 1)).toOption.map Table.pot =
      some 0 ∧
    wrapTable.pot = 2 ^ 64 - 1 := by decide

/-- C2 (amended): `Bet amount` and `Raise amount` fail `InsufficientChips`
exactly when `amount > chips`; otherwise they succeed, decrease the seat's
chips by `amount` and set the pot to `(pot + amount) mod 2^64` — an
increase by `amount` whenever the sum stays below `2^64`; `Raise` has the
identical effect to `Bet`; `AllIn` always succeeds, moving the whole stack
(pot taken mod `2^64`); chips never go below zero (the subtraction is
guarded by `amount ≤ chips`). -/
theorem C2_chip_movement (t : Table) (s : Session) (k : Pubkey) (now : Int)
    (i : Nat) (slot : PlayerSlot) (amount : Nat)
    (h1 : now < s.expiry) (h2 : k = s.ephemeral_signer)
    (hfind : t.find_player s.authority = some i)
    (hslot : t.players[i]? = some (some slot)) (hin : slot.in_hand = true) :
    (¬amount ≤ slot.chips →
      action t s k now (.Bet amount) = .error .InsufficientChips ∧
      action t s k now (.Raise amount) = .error .InsufficientChips) ∧
    (amount ≤ slot.chips →
      action t s k now (.Bet amount) =
        .ok { t with
              players := t.players.set i (some { slot with chips := slot.chips - amount })
              pot := (t.pot + amount) % U64 } ∧
      action t s k now (.Raise amount) = action t s k now (.Bet amount)) ∧
    action t s k now .AllIn =
      .ok { t with
            players := t.players.set i (some { slot with chips := 0 })
            pot := (t.pot + slot.chips) % U64 } ∧
    (amount ≤ slot.chips → t.pot + amount < U64 →
      ∀ t' : Table, action t s k now (.Bet amount) = .ok t' →
        t'.pot = t.pot + amount) := by
  refine ⟨?_, ?_, ?_, ?_⟩
  · intro h5
    constructor <;>
      (simp only [action, hfind, hslot]
       rw [if_neg (not_not_intro h1), if_neg (not_not_intro h2),
           if_neg (by simp [hin]), if_pos h5])
  · intro h5
    constructor
    · simp only [action, hfind, hslot]
      rw [if_neg (not_not_intro h1), if_neg (not_not_intro h2),
          if_neg (by simp [hin]), if_neg (not_not_intro h5)]
    · rfl
  · simp only [action, hfind, hslot]
    rw [if_neg (not_not_intro h1), if_neg (not_not_intro h2), if_neg (by simp [hin])]
  · intro h5 h6 t' h
    simp only [action, hfind, hslot] at h
    rw [if_neg (not_not_intro h1), if_neg (not_not_intro h2),
        if_neg (by simp [hin]), if_neg (not_not_intro h5)] at h
    simp only [Except.ok.injEq] at h
    rw [← h]
    exact Nat.mod_eq_of_lt h6

/-- Witness for C2: a successful `Bet 200` on the sample table. -/
theorem C2_witness :
    action sampleTable sampleSession 20 6 (GameAction.Bet 200) =
      .ok { sampleTable with
            players := sampleTable.players.set 0
              (some { sampleSlot with chips := sampleSlot.chips - 200 })
            pot := (sampleTable.pot + 200) % U64 } :=
  ((C2_chip_movement sampleTable sampleSession 20 6 0 sampleSlot 200 (by decide)
      (by decide) (by decide) (by decide) (by decide)).2.1 (by decide)).1

/-- C7 counterexample: on a reachable table whose pot is `2^64 - 1`, a
successful `Call` (big blind `2`) wraps the pot down to `1`, so the pot is
not monotonically non-decreasing over all `u64` values. -/
theorem C7_counterexample :
    (action wrapTable sampleSession 20 5 GameAction.Call).toOption.map Table.pot =
      some 1 ∧
    wrapTable.pot = 2 ^ 64 - 1 := by decide

/-- C7 (amended): a successful `action` updates the pot to exactly
`(pot + potDelta) mod 2^64` for its own variant's delta — zero for `Fold`
(pot unchanged), the big blind for `Call`, the bet/raise amount, or the
resolved seat's stack for `AllIn` — so the pot never decreases unless that
`u64` addition overflows and wraps. -/
theorem C7_pot_monotone_no_overflow (t : Table) (s : Session) (k : Pubkey) (now : Int)
    (ga : GameAction) (t' : Table) (h : action t s k now ga = .ok t') :
    ∃ (i : Nat) (slot : PlayerSlot),
      t.find_player s.authority = some i ∧ t.players[i]? = some (some slot) ∧
      (ga = GameAction.Fold → t'.pot = t.pot) ∧
      (¬ga = GameAction.Fold → t'.pot = (t.pot + potDelta t slot ga) % U64) ∧
      (t.pot + potDelta t slot ga < U64 → t.pot ≤ t'.pot) := by
  obtain ⟨_, _, i, slot, hfind, hslot, _, hcases⟩ := action_ok h
  rcases hcases with ⟨heq, ht'⟩ | ⟨heq, ht'⟩ | ⟨am, heq | heq, _, ht'⟩ | ⟨heq, ht'⟩
  · subst heq
    subst ht'
    exact ⟨i, slot, hfind, hslot, fun _ => rfl, fun hne => absurd rfl hne,
      fun _ => Nat.le_refl t.pot⟩
  · subst heq
    subst ht'
    refine ⟨i, slot, hfind, hslot, fun hf => absurd hf (by simp), fun _ => rfl, ?_⟩
    intro ho
    have ho' : t.pot + t.big_blind < U64 := ho
    show t.pot ≤ (t.pot + t.big_blind) % U64
    rw [Nat.mod_eq_of_lt ho']
    omega
  · subst heq
    subst ht'
    refine ⟨i, slot, hfind, hslot, fun hf => absurd hf (by simp), fun _ => rfl, ?_⟩
    intro ho
    have ho' : t.pot + am < U64 := ho
    show t.pot ≤ (t.pot + am) % U64
    rw [Nat.mod_eq_of_lt ho']
    omega
  · subst heq
    subst ht'
    refine ⟨i, slot, hfind, hslot, fun hf => absurd hf (by simp), fun _ => rfl, ?_⟩
    intro ho
    have ho' : t.pot + am < U64 := ho
    show t.pot ≤ (t.pot + am) % U64
    rw [Nat.mod_eq_of_lt ho']
    omega
  · subst heq
    subst ht'
    refine ⟨i, slot, hfind, hslot, fun hf => absurd hf (by simp), fun _ => rfl, ?_⟩
    intro ho
    have ho' : t.pot + slot.chips < U64 := ho
    show t.pot ≤ (t.pot + slot.chips) % U64
    rw [Nat.mod_eq_of_lt ho']
    omega

/-- Witness for C7 at a concrete successful bet. -/
theorem C7_witness :
    ∃ (i : Nat) (slot : PlayerSlot),
      sampleTable.find_player sampleSession.authority = some i ∧
      sampleTable.players[i]? = some (some slot) ∧
      (GameAction.Bet 200 = GameAction.Fold → sampleTableBet.pot = sampleTable.pot) ∧
      (¬GameAction.Bet 200 = GameAction.Fold →
        sampleTableBet.pot =
          (sampleTable.pot + potDelta sampleTable slot (GameAction.Bet 200)) % U64) ∧
      (sampleTable.pot + potDelta sampleTable slot (GameAction.Bet 200) < U64 →
        sampleTable.pot ≤ sampleTableBet.pot) :=
  C7_pot_monotone_no_overflow sampleTable sampleSession 20 6 (GameAction.Bet 200)
    sampleTableBet (by rfl)

/-- Occupied slots of `xs.map some` are all of `xs`, for counting. -/
theorem countP_isSome_map_some (xs : List PlayerSlot) :
    (xs.map some).countP (fun o => o.isSome) = xs.length := by
  induction xs with
  | nil => simp
  | cons x xs ih => simp [List.countP_cons, ih]

/-- Empty slots contribute nothing to the occupancy count. -/
theorem countP_isSome_replicate_none (n : Nat) :
    (List.replicate n (none : Option PlayerSlot)).countP (fun o => o.isSome) = 0 := by
  induction n with
  | zero => simp
  | succ n ih => simp [List.replicate_succ, List.countP_cons, ih]

/-- C10 counterexample: `Call` with a zero big blind leaves the
chips-plus-pot sum unchanged (not a strict increase), and a `Bet` whose pot
addition wraps past `2^64` changes the sum. -/
theorem C10_counterexample :
    (action zeroBlindTable sampleSession 20 5 GameAction.Call).toOption.map chipsPlusPot =
      some (chipsPlusPot zeroBlindTable) ∧
    (action wrapTable sampleSession 20 5 (GameAction.Bet 1)).toOption.map chipsPlusPot =
      some 499 ∧
    chipsPlusPot wrapTable = 2 ^ 64 + 499 := by decide

/-- C10 (amended): when the pot addition of the variant itself does not
overflow `u64` (`pot + amount` for `Bet`/`Raise`, `pot + the resolved
seat's chips` for `AllIn`, `pot + big_blind` for `Call`), a successful
`Fold`, `Bet`, `Raise` or `AllIn` leaves the sum of seated chips plus pot
unchanged, and a successful `Call` increases it by exactly `big_blind`
(strictly only when `big_blind > 0`). -/
theorem C10_chip_conservation (t : Table) (s : Session) (k : Pubkey) (now : Int) :
    (∀ t' : Table, action t s k now .Fold = .ok t' →
      chipsPlusPot t' = chipsPlusPot t) ∧
    (∀ (amount : Nat) (t' : Table), t.pot + amount < U64 →
      action t s k now (.Bet amount) = .ok t' → chipsPlusPot t' = chipsPlusPot t) ∧
    (∀ (amount : Nat) (t' : Table), t.pot + amount < U64 →
      action t s k now (.Raise amount) = .ok t' → chipsPlusPot t' = chipsPlusPot t) ∧
    (∀ (i : Nat) (slot : PlayerSlot) (t' : Table),
      t.find_player s.authority = some i → t.players[i]? = some (some slot) →
      t.pot + slot.chips < U64 → action t s k now .AllIn = .ok t' →
      chipsPlusPot t' = chipsPlusPot t) ∧
    (∀ t' : Table, t.pot + t.big_blind < U64 → action t s k now .Call = .ok t' →
      chipsPlusPot t' = chipsPlusPot t + t.big_blind) := by
  refine ⟨?_, ?_, ?_, ?_, ?_⟩
  · intro t' h
    obtain ⟨_, _, i, slot, _, hslot, _, hcases⟩ := action_ok h
    rcases hcases with ⟨_, ht'⟩ | ⟨heq, _⟩ | ⟨am, heq | heq, _, _⟩ | ⟨heq, _⟩
    · have hs := @sum_chips_set t.players i slot { slot with in_hand := false } hslot
      dsimp only at hs
      rw [ht']
      simp only [chipsPlusPot]
      omega
    · simp at heq
    · simp at heq
    · simp at heq
    · simp at heq
  · intro amount t' hnof h
    obtain ⟨_, _, i, slot, _, hslot, _, hcases⟩ := action_ok h
    rcases hcases with ⟨heq, _⟩ | ⟨heq, _⟩ | ⟨am, heq | heq, hle, ht'⟩ | ⟨heq, _⟩
    · simp at heq
    · simp at heq
    · have ham : amount = am := by
        simpa using heq
      subst ham
      have hs := @sum_chips_set t.players i slot { slot with chips := slot.chips - amount }
        hslot
      dsimp only at hs
      have hcl := chips_le_sum hslot
      rw [ht']
      simp only [chipsPlusPot]
      rw [Nat.mod_eq_of_lt hnof]
      omega
    · simp at heq
    · simp at heq
  · intro amount t' hnof h
    obtain ⟨_, _, i, slot, _, hslot, _, hcases⟩ := action_ok h
    rcases hcases with ⟨heq, _⟩ | ⟨heq, _⟩ | ⟨am, heq | heq, hle, ht'⟩ | ⟨heq, _⟩
    · simp at heq
    · simp at heq
    · simp at heq
    · have ham : amount = am := by
        simpa using heq
      subst ham
      have hs := @sum_chips_set t.players i slot { slot with chips := slot.chips - amount }
        hslot
      dsimp only at hs
      have hcl := chips_le_sum hslot
      rw [ht']
      simp only [chipsPlusPot]
      rw [Nat.mod_eq_of_lt hnof]
      omega
    · simp at heq
  · intro i0 slot0 t' hfind0 hslot0 hnof h
    obtain ⟨_, _, i, slot, hfind, hslot, _, hcases⟩ := action_ok h
    have hii : i0 = i := Option.some.inj (hfind0.symm.trans hfind)
    subst hii
    have hss : slot0 = slot :=
      Option.some.inj (Option.some.inj (hslot0.symm.trans hslot))
    subst hss
    rcases hcases with ⟨heq, _⟩ | ⟨heq, _⟩ | ⟨am, heq | heq, _, _⟩ | ⟨_, ht'⟩
    · simp at heq
    · simp at heq
    · simp at heq
    · simp at heq
    · have hs := @sum_chips_set t.players i0 slot0 { slot0 with chips := 0 } hslot
      dsimp only at hs
      have hcl := chips_le_sum hslot
      rw [ht']
      simp only [chipsPlusPot]
      rw [Nat.mod_eq_of_lt hnof]
      omega
  · intro t' hnof h
    obtain ⟨_, _, i, slot, _, hslot, _, hcases⟩ := action_ok h
    rcases hcases with ⟨heq, _⟩ | ⟨_, ht'⟩ | ⟨am, heq | heq, _, _⟩ | ⟨heq, _⟩
    · simp at heq
    · rw [ht']
      simp only [chipsPlusPot]
      rw [Nat.mod_eq_of_lt hnof]
      omega
    · simp at heq
    · simp at heq
    · simp at heq

/-- Witness for C10: a concrete `Call` adds the big blind to the sum. -/
theorem C10_witness :
    chipsPlusPot sampleTableCall = chipsPlusPot sampleTable + sampleTable.big_blind :=
  (C10_chip_conservation sampleTable sampleSession 20 6).2.2.2.2 sampleTableCall
    (by decide) (by rfl)

/-- C3: in every state reachable by successful instructions from
`create_table`, `player_count` equals the number of occupied slots, the
first `player_count` slots are occupied, and every later slot is empty
(each instruction preserves this). -/
theorem C3_roster_invariant (t : Table) (h : Reachable t) :
    t.player_count = t.players.countP (fun o => o.isSome) ∧
    (t.players.take t.player_count).all (fun o => o.isSome) = true ∧
    t.players.drop t.player_count =
      List.replicate (MAX_PLAYERS - t.player_count) none := by
  obtain ⟨xs, hle, hcount, hps⟩ := Reachable_shape h
  refine ⟨?_, ?_, ?_⟩
  · rw [hps, hcount, Spread, List.countP_append, countP_isSome_map_some,
        countP_isSome_replicate_none]
    omega
  · rw [hps, hcount, Spread, List.take_left' (by simp)]
    simp [List.all_eq_true]
  · rw [hps, hcount, Spread, List.drop_left' (by simp)]

/-- Witness for C3 at a freshly created table. -/
theorem C3_witness :
    (create_table 7 1 2 100 1000).player_count =
      (create_table 7 1 2 100 1000).players.countP (fun o => o.isSome) ∧
    ((create_table 7 1 2 100 1000).players.take
      (create_table 7 1 2 100 1000).player_count).all (fun o => o.isSome) = true ∧
    (create_table 7 1 2 100 1000).players.drop
      (create_table 7 1 2 100 1000).player_count =
      List.replicate (MAX_PLAYERS - (create_table 7 1 2 100 1000).player_count) none :=
  C3_roster_invariant (create_table 7 1 2 100 1000) (Reachable.create 7 1 2 100 1000)

/-- C5: `leave_table` fails `PlayerNotFound` when the caller holds no
occupied seat; on success (stated over rosters satisfying the contiguity
invariant) it removes the caller's seat and compacts: the remaining
players keep their relative order as the new contiguous prefix, the tail
is empty, `player_count` matches the remaining occupancy, and slots below
the removed index are untouched. -/
theorem C5_leave_table_spec (t : Table) (p : Pubkey) (xs : List PlayerSlot)
    (hle : xs.length ≤ MAX_PLAYERS) (hcount : t.player_count = xs.length)
    (hps : t.players = Spread xs) :
    ((∀ (j : Nat) (sl : PlayerSlot), t.players[j]? = some (some sl) →
        ¬sl.authority = p) →
      leave_table t p = .error .PlayerNotFound) ∧
    (∀ i : Nat, t.find_player p = some i →
      ∃ t' : Table, leave_table t p = .ok t' ∧ i < xs.length ∧
        t'.players = Spread (xs.eraseIdx i) ∧
        t'.player_count = xs.length - 1 ∧
        t'.player_count = (t'.players.filterMap id).length ∧
        (∀ j : Nat, j < i → t'.players[j]? = t.players[j]?)) := by
  constructor
  · intro hno
    rw [leave_table, show t.find_player p = none from find_player_eq_none.mpr hno]
  · intro i hfind
    obtain ⟨hi, hauth⟩ := find_player_shape hps hle hfind
    have hlen9 : (t.players.set i none).length = MAX_PLAYERS := by
      rw [List.length_set, hps, Spread_length hle]
    have hfm : (t.players.set i none).filterMap id = xs.eraseIdx i := by
      rw [hps]
      exact Spread_set_none_filterMap hi
    have hcpe := compact_players_eq { t with players := t.players.set i none } hlen9
    dsimp only at hcpe
    rw [hfm] at hcpe
    have hlene : (xs.eraseIdx i).length = xs.length - 1 := List.length_eraseIdx_of_lt hi
    refine ⟨Table.compact_players { t with players := t.players.set i none },
      by rw [leave_table, hfind], hi, ?_, ?_, ?_, ?_⟩
    · rw [hcpe]
      rfl
    · rw [hcpe]
      exact hlene
    · rw [hcpe]
      show (xs.eraseIdx i).length = ((Spread (xs.eraseIdx i)).filterMap id).length
      rw [Spread_filterMap]
    · intro j hj
      rw [hcpe]
      show (Spread (xs.eraseIdx i))[j]? = t.players[j]?
      rw [hps]
      have hj1 : j < (xs.eraseIdx i).length := by omega
      rw [Spread_getElem_lt hj1, Spread_getElem_lt (by omega)]
      congr 1
      rw [List.eraseIdx_eq_take_drop_succ,
          List.getElem?_append_left (by simp [List.length_take]; omega)]
      exact List.getElem?_take_of_lt (by omega)

/-- Witness for C5: the seated player leaves the sample table. -/
theorem C5_witness :
    ∃ t' : Table, leave_table sampleTable 10 = .ok t' ∧
      0 < ([sampleSlot] : List PlayerSlot).length ∧
      t'.players = Spread (([sampleSlot] : List PlayerSlot).eraseIdx 0) ∧
      t'.player_count = ([sampleSlot] : List PlayerSlot).length - 1 ∧
      t'.player_count = (t'.players.filterMap id).length ∧
      (∀ j : Nat, j < 0 → t'.players[j]? = sampleTable.players[j]?) :=
  (C5_leave_table_spec sampleTable 10 [sampleSlot] (by decide) (by decide)
    (by decide)).2 0 (by decide)

/-- C6: when an instruction fails — with an in-program error or a
record-store rejection — the committed state is exactly the input state:
no record it touches is modified. -/
theorem C6_error_no_effect (w : World) (op : Op) (e : OpError)
    (h : (runOp w op).2 = some e) : (runOp w op).1 = w := by
  cases op <;> (revert h; simp only [runOp]) <;> (repeat' split) <;> intro h <;>
    first
      | rfl
      | exact absurd h (by simp)

/-- Witness for C6: a rejected buy-in leaves the world unchanged. -/
theorem C6_witness : (runOp sampleWorld (Op.joinTable 12 5)).1 = sampleWorld :=
  C6_error_no_effect sampleWorld (Op.joinTable 12 5)
    (OpError.core GoldenflopError.InvalidBuyIn) (by rfl)

/-- C9: `revoke_session` fails `InvalidSigner` unless the caller is the
session's authority; on success it deletes the session record and leaves
the table — including the seat's cached `session_key`, which keeps the
revoked ephemeral signer — entirely unchanged. -/
theorem C9_revoke_session_spec (w : World) (a caller : Pubkey) (s : Session)
    (hs : lookupSession w.sessions a = some s) :
    (¬caller = s.authority →
      runOp w (.revokeSession a caller) = (w, some (.core .InvalidSigner))) ∧
    (caller = s.authority →
      runOp w (.revokeSession a caller) =
        ({ table := w.table, sessions := removeSession w.sessions a }, none) ∧
      lookupSession (removeSession w.sessions a) a = none ∧
      (runOp w (.revokeSession a caller)).1.table = w.table ∧
      (∀ (j : Nat) (sl : PlayerSlot), w.table.players[j]? = some (some sl) →
        sl.session_key = s.ephemeral_signer →
        (runOp w (.revokeSession a caller)).1.table.players[j]? = some (some sl))) := by
  constructor
  · intro hc
    simp only [runOp, hs, revoke_session, if_pos hc]
  · intro hc
    have hrun : runOp w (.revokeSession a caller) =
        ({ table := w.table, sessions := removeSession w.sessions a }, none) := by
      simp only [runOp, hs, revoke_session, if_neg (not_not_intro hc)]
    refine ⟨hrun, lookupSession_removeSession _ _, by rw [hrun], ?_⟩
    intro j sl hj hkey
    rw [hrun]
    exact hj

/-- Witness for C9: a revoke by a non-authority caller fails and changes
nothing. -/
theorem C9_witness :
    runOp sampleWorld (Op.revokeSession 10 11) =
      (sampleWorld, some (.core .InvalidSigner)) :=
  (C9_revoke_session_spec sampleWorld 10 11 sampleSession (by rfl)).1 (by decide)
